import Mathlib

/-!
Shallow embedding of the core logic of `tasks_odoo_live.py` (SFZPL/tasklist):
filter-domain combination, many-to-one label resolution, timestamp shifting
and range formatting, per-owner grouping and sorting of planning slots, the
per-record morning text block, and creator-filtered recap grouping.

Python values flowing through the modelled record fields are booleans
(`False` marks an unset field), `None`, integers, strings, or flat
`[id, label]` lists of such scalars, as delivered by the backend
`search_read`/`read` calls.  `PyAtom` models the scalar universe and `PyVal`
a possibly-list-shaped field value.  Floating-point field values do not
occur in any modelled code path that depends on more than truthiness.
-/

namespace Tasklist

/-- Scalar Python values occurring in fetched record fields. -/
inductive PyAtom where
  | aFalse
  | aNone
  | aInt (n : Int)
  | aStr (s : String)
deriving DecidableEq, Repr

/-- A record field value: a scalar, or a flat list of scalars
(the many-to-one fields of the backend are `[id, label]` lists). -/
inductive PyVal where
  | atom (a : PyAtom)
  | list (l : List PyAtom)
deriving DecidableEq, Repr

/-- Python truthiness of a scalar. -/
def PyAtom.truthy : PyAtom → Bool
  | .aFalse => false
  | .aNone => false
  | .aInt n => n != 0
  | .aStr s => s != ""

/-- Python truthiness of a field value. -/
def PyVal.truthy : PyVal → Bool
  | .atom a => a.truthy
  | .list l => l != []

/-- Python str() of a scalar. -/
def PyAtom.toStr : PyAtom → String
  | .aFalse => "False"
  | .aNone => "None"
  | .aInt n => toString n
  | .aStr s => s

/-- Python repr() of a scalar, as used when a list is stringified.  The quote
character is built from its code point; escaping inside the string is not
modelled (no modelled claim depends on it). -/
def PyAtom.toRepr : PyAtom → String
  | .aStr s => String.singleton (Char.ofNat 39) ++ s ++ String.singleton (Char.ofNat 39)
  | a => a.toStr

/-- Python str() of a field value. -/
def PyVal.toStr : PyVal → String
  | .atom a => a.toStr
  | .list l => "[" ++ String.intercalate ", " (l.map PyAtom.toRepr) ++ "]"

/-! ### Naive datetimes (`datetime.strptime` / `timedelta` / `strftime`)

`format_datetime_range` uses `datetime.strptime(s, "%Y-%m-%d %H:%M:%S")`,
adds a three-hour timedelta and reformats with the same pattern.  CPython
compiles the strptime pattern to a regex: `%Y` is exactly four digits;
`%m`, `%d`, `%H`, `%M`, `%S` each accept one or two digits within their
value range (a lone `"0"` is rejected for `%m`/`%d`); a literal space
matches a nonempty whitespace run; the whole input must be consumed.  The
`datetime` constructor then validates every field (year 1-9999, day
against the month length) and raises `ValueError` otherwise; arithmetic
past year 9999 raises `OverflowError`.  Both errors are caught by the
catch-all exception handler of the caller. -/

/-- A naive `datetime` value. -/
structure DateTime where
  year : Nat
  month : Nat
  day : Nat
  hour : Nat
  minute : Nat
  second : Nat
deriving DecidableEq, Repr

/-- Gregorian leap year. -/
def isLeap (y : Nat) : Bool := (y % 4 == 0 && y % 100 != 0) || y % 400 == 0

/-- Length of a month (month numbered 1-12). -/
def daysInMonth (y : Nat) (m : Nat) : Nat :=
  if m = 2 then (if isLeap y then 29 else 28)
  else if m = 4 || m = 6 || m = 9 || m = 11 then 30
  else 31

/-- The datetime constructor applied to the six fields: validates all of them, `none` models
a raised `ValueError`. -/
def datetimeCtor (y mo da ho mi se : Nat) : Option DateTime :=
  if 1 ≤ y && y ≤ 9999 && 1 ≤ mo && mo ≤ 12 && 1 ≤ da && da ≤ daysInMonth y mo
      && ho ≤ 23 && mi ≤ 59 && se ≤ 59 then
    some ⟨y, mo, da, ho, mi, se⟩
  else none

/-- Numeric value of a digit character. -/
def digitVal (c : Char) : Nat := c.toNat - 48

/-- Year field of the pattern: exactly four digits. -/
def year4 : List Char → List (Nat × List Char)
  | a :: b :: c :: d :: rest =>
    if a.isDigit && b.isDigit && c.isDigit && d.isDigit then
      [(1000 * digitVal a + 100 * digitVal b + 10 * digitVal c + digitVal d, rest)]
    else []
  | _ => []

/-- A one-or-two digit field.  The two-digit alternative is preferred (as in
the regex), the one-digit alternative remains available for backtracking. -/
def twoOrOne (ok2 ok1 : Nat → Bool) : List Char → List (Nat × List Char)
  | a :: b :: rest =>
    (if a.isDigit && b.isDigit && ok2 (10 * digitVal a + digitVal b) then
      [(10 * digitVal a + digitVal b, rest)] else []) ++
    (if a.isDigit && ok1 (digitVal a) then [(digitVal a, b :: rest)] else [])
  | [a] => if a.isDigit && ok1 (digitVal a) then [(digitVal a, [])] else []
  | [] => []

/-- A literal separator character. -/
def litChar (c : Char) : List Char → List (List Char)
  | x :: rest => if x = c then [rest] else []
  | [] => []

/-- ASCII `\s` (the regex also accepts Unicode whitespace, which no modelled
input contains). -/
def isPyWs (c : Char) : Bool :=
  c = ' ' || c = '\t' || c = '\n' || c = '\r' || c = Char.ofNat 11 || c = Char.ofNat 12

/-- Whitespace run matched by the literal space in the pattern: one or more whitespace
characters.  The following field starts with a digit, so consuming the
maximal run is the only viable choice. -/
def ws1 : List Char → List (List Char)
  | c :: rest => if isPyWs c then [rest.dropWhile isPyWs] else []
  | [] => []

/-- All complete matches of the `"%Y-%m-%d %H:%M:%S"` regex against the
input, in backtracking order; raw field tuples before `datetime` validation. -/
def dtCands (cs : List Char) : List (Nat × Nat × Nat × Nat × Nat × Nat) :=
  (year4 cs).flatMap fun p1 =>
  (litChar '-' p1.2).flatMap fun r2 =>
  (twoOrOne (fun v => 1 ≤ v && v ≤ 12) (fun v => 1 ≤ v && v ≤ 9) r2).flatMap fun p2 =>
  (litChar '-' p2.2).flatMap fun r4 =>
  (twoOrOne (fun v => 1 ≤ v && v ≤ 31) (fun v => 1 ≤ v && v ≤ 9) r4).flatMap fun p3 =>
  (ws1 p3.2).flatMap fun r6 =>
  (twoOrOne (fun v => v ≤ 23) (fun _ => true) r6).flatMap fun p4 =>
  (litChar ':' p4.2).flatMap fun r8 =>
  (twoOrOne (fun v => v ≤ 59) (fun _ => true) r8).flatMap fun p5 =>
  (litChar ':' p5.2).flatMap fun r10 =>
  (twoOrOne (fun v => v ≤ 59) (fun _ => true) r10).flatMap fun p6 =>
  if p6.2 = [] then [(p1.1, p2.1, p3.1, p4.1, p5.1, p6.1)] else []

/-- Model of datetime.strptime with the fixed pattern; `none` models a raised
`ValueError` (no regex match, or constructor validation failure). -/
def strptime (s : String) : Option DateTime :=
  match (dtCands s.data).head? with
  | some (y, mo, da, ho, mi, se) => datetimeCtor y mo da ho mi se
  | none => none

/-- Zero-pad to two digits. -/
def pad2 (n : Nat) : String := if n < 10 then "0" ++ toString n else toString n

/-- Zero-pad to four digits. -/
def pad4 (n : Nat) : String :=
  if n < 10 then "000" ++ toString n
  else if n < 100 then "00" ++ toString n
  else if n < 1000 then "0" ++ toString n
  else toString n

/-- Model of strftime with the fixed pattern. -/
def strftime (dt : DateTime) : String :=
  pad4 dt.year ++ "-" ++ pad2 dt.month ++ "-" ++ pad2 dt.day ++ " " ++
    pad2 dt.hour ++ ":" ++ pad2 dt.minute ++ ":" ++ pad2 dt.second

/-- The next calendar day (time fields untouched). -/
def addOneDay (dt : DateTime) : DateTime :=
  if dt.day < daysInMonth dt.year dt.month then { dt with day := dt.day + 1 }
  else if dt.month < 12 then { dt with month := dt.month + 1, day := 1 }
  else { dt with year := dt.year + 1, month := 1, day := 1 }

/-- Advance by a number of days. -/
def addDays (dt : DateTime) : Nat → DateTime
  | 0 => dt
  | n + 1 => addDays (addOneDay dt) n

/-- Addition of an hour timedelta; `none` models the overflow error raised when
the result would leave the supported year range. -/
def addHours (dt : DateTime) (h : Nat) : Option DateTime :=
  let total := dt.hour + h
  let dt2 := addDays { dt with hour := total % 24 } (total / 24)
  if dt2.year ≤ 9999 then some dt2 else none

/-- Days in the year before the given month (month numbered 1-12). -/
def daysBeforeMonth (y : Nat) (m : Nat) : Nat :=
  match m with
  | 0 => 0
  | 1 => 0
  | n + 1 => daysBeforeMonth y n + daysInMonth y n

/-- Proleptic-Gregorian day number of a date, as computed by CPython. -/
def toOrdinal (y mo da : Nat) : Nat :=
  365 * (y - 1) + (y - 1) / 4 - (y - 1) / 100 + (y - 1) / 400 + daysBeforeMonth y mo + da

/-- Seconds since the calendar origin; the yardstick for "adds exactly three
hours". -/
def totalSec (dt : DateTime) : Nat :=
  86400 * toOrdinal dt.year dt.month dt.day + 3600 * dt.hour + 60 * dt.minute + dt.second

/-- Field validity as established by `datetimeCtor`, minus the upper year
bound (day arithmetic may leave it; formatting never sees such values). -/
def DateValid (dt : DateTime) : Prop :=
  1 ≤ dt.year ∧ 1 ≤ dt.month ∧ dt.month ≤ 12 ∧ 1 ≤ dt.day ∧
    dt.day ≤ daysInMonth dt.year dt.month ∧ dt.hour ≤ 23 ∧ dt.minute ≤ 59 ∧ dt.second ≤ 59

/-! ### `format_datetime_range` (lines 56-75) -/

/-- The tail of `format_datetime_range` (lines 73-75), named format_range in the spec: empty when both parts are empty, the start alone when the
end is empty, `"start -> end"` otherwise. -/
def format_range (start_fmt end_fmt : String) : String :=
  if end_fmt = "" then start_fmt else start_fmt ++ " -> " ++ end_fmt

/-- One arm of the `try` block: shift a non-empty timestamp by three hours
and reformat; the empty string passes through; `none` models a raised
exception (parse failure or overflow). -/
def shiftOpt (x : String) : Option String :=
  if x = "" then some ""
  else
    match strptime x with
    | none => none
    | some d =>
      match addHours d 3 with
      | none => none
      | some d2 => some (strftime d2)

/-- Model of format_datetime_range: both timestamps are
shifted inside one `try`; any exception falls back to the original strings
for both. -/
def format_datetime_range (start_dt_str end_dt_str : String) : String :=
  match shiftOpt start_dt_str with
  | none => format_range start_dt_str end_dt_str
  | some a =>
    match shiftOpt end_dt_str with
    | none => format_range start_dt_str end_dt_str
    | some b => format_range a b

/-- Model of the operation the spec names shift_and_format: the
single-timestamp core of the `try` block (lines 59-61) together with the
return-the-input fallback (line 71). -/
def shift_and_format (ts : String) (offset_hours : Nat) : String :=
  match strptime ts with
  | none => ts
  | some d =>
    match addHours d offset_hours with
    | none => ts
    | some d2 => strftime d2

/-! ### Filter domains (`combine_domains_or`, lines 43-49)

A domain is a flat list of tokens: the prefix combinators of the backend
(the pipe and ampersand strings), or field-operator-value condition triples. -/

/-- One element of an Odoo domain list. -/
inductive DomTok where
  | orTok
  | andTok
  | cond (field : String) (op : String) (value : PyAtom)
deriving DecidableEq, Repr

/-- Model of combine_domains_or:
`combined = domains_list[0]; for d in domains_list[1:]: combined = ['|'] + combined + d`. -/
def combine_domains_or (domains_list : List (List DomTok)) : List DomTok :=
  match domains_list with
  | [] => []
  | d0 :: rest => rest.foldl (fun combined d => DomTok.orTok :: combined ++ d) d0

/-! ### `get_field_name` (lines 51-54) -/

/-- Model of get_field_name: the second element of a list of length
more than one, else the empty string. -/
def get_field_name (v : PyVal) : PyAtom :=
  match v with
  | .list l => if 1 < l.length then l.getD 1 .aNone else .aStr ""
  | .atom _ => .aStr ""

/-! ### Records

`planning.slot` rows as returned by `search_read`: every requested field is
present in the dict, with `False` marking an unset value; the `state` and
`allocated_hours` fields are fetched but never used by the modelled logic
and are omitted.  For the two datetime fields the three relevant shapes are
distinguished: key absent from the dict (`.get` falls back to its default),
present but unset (`False`), or a string. -/

/-- A datetime-valued dict entry. -/
inductive DtVal where
  | absent
  | unset
  | val (s : String)
deriving DecidableEq, Repr

/-- A fetched `planning.slot` record. -/
structure Task where
  resource_id : PyVal
  role_id : PyVal
  x_studio_parent_task : PyVal
  x_studio_sub_task_1 : PyVal
  start_datetime : DtVal
  end_datetime : DtVal
deriving DecidableEq, Repr

/-- A `project.task` sub-task detail row (`fetch_subtask_details`). -/
structure SubRec where
  service_category : PyVal
  units : PyVal
deriving DecidableEq, Repr

/-- Lookup in the sub-task detail map, a dict keyed by record id; ids are
deduplicated before the fetch, so keys are distinct. -/
def lookupSub (m : List (PyAtom × SubRec)) (k : PyAtom) : Option SubRec :=
  match m with
  | [] => none
  | (k2, r) :: rest => if k2 = k then some r else lookupSub rest k

/-! ### Grouping (ordered Python dict of lists) -/

/-- Model of setdefault-then-append on an insertion-ordered dict. -/
def insertGrouped {α : Type} (g : List (PyAtom × List α)) (k : PyAtom) (x : α) :
    List (PyAtom × List α) :=
  match g with
  | [] => [(k, [x])]
  | (k2, xs) :: rest =>
    if k2 = k then (k2, xs ++ [x]) :: rest else (k2, xs) :: insertGrouped rest k x

/-- The list stored under a key (empty when the key is absent). -/
def lookupGrouped {α : Type} (k : PyAtom) (g : List (PyAtom × List α)) : List α :=
  match g with
  | [] => []
  | (k2, xs) :: rest => if k2 = k then xs else lookupGrouped k rest

/-- Concatenation of all groups in order. -/
def flattenGrouped {α : Type} (g : List (PyAtom × List α)) : List α :=
  match g with
  | [] => []
  | (_, xs) :: rest => xs ++ flattenGrouped rest

/-- The keys in insertion order. -/
def groupedKeys {α : Type} (g : List (PyAtom × List α)) : List PyAtom := g.map Prod.fst

/-! ### Grouping tasks by designer (`main`, lines 337-341) -/

/-- Model of the designer-key expression of main, line 340: the second
element when the owner reference is a list of length at least two, and the
sentinel otherwise. -/
def designer_of (t : Task) : PyAtom :=
  match t.resource_id with
  | .list l => if 1 < l.length then l.getD 1 .aNone else .aStr "Unassigned"
  | .atom _ => .aStr "Unassigned"

/-- The grouping loop of `main` (lines 337-341). -/
def group_by_owner (tasks : List Task) : List (PyAtom × List Task) :=
  tasks.foldl (fun g t => insertGrouped g (designer_of t) t) []

/-! ### Sorting the group of one designer (`main` lines 342-348, also
`create_morning_table` lines 189-194)

The sort key parses the start-datetime entry, read with the epoch default
for an absent key; an
unset (`False`) value raises `TypeError` inside `strptime`; a malformed
string raises a value error.  The CPython sort evaluates the key on
every element before reordering anything, so a raised key leaves the list
in its original order, and the surrounding `try`/`except: pass` swallows
the exception. -/

/-- The sort key of one record; `none` models a raised exception. -/
def slotSortKey (t : Task) : Option DateTime :=
  match t.start_datetime with
  | .absent => strptime "1970-01-01 00:00:00"
  | .unset => none
  | .val s => strptime s

/-- Injective encoding of a valid datetime, realizing `datetime`'s
field-lexicographic comparison. -/
def dtEnc (d : DateTime) : Nat :=
  ((((d.year * 13 + d.month) * 32 + d.day) * 24 + d.hour) * 60 + d.minute) * 60 + d.second

/-- The key actually compared during the sort (the default never surfaces:
the sorting branch requires every key to be `some`). -/
def keyOrDefault (t : Task) : Nat :=
  dtEnc ((slotSortKey t).getD ⟨1970, 1, 1, 0, 0, 0⟩)

/-- Stable insertion of a record into an already-sorted suffix: the new
record precedes the first strictly-or-equally later one. -/
def insertSorted (x : Task) : List Task → List Task
  | [] => [x]
  | y :: ys =>
    if keyOrDefault x ≤ keyOrDefault y then x :: y :: ys else y :: insertSorted x ys

/-- Stable sort by start key.  `list.sort` (Timsort) is a stable sort by
this key; the output of a stable sort is determined by the key order and the
input order, so insertion sort realizes it. -/
def insertionSortTasks : List Task → List Task
  | [] => []
  | x :: xs => insertSorted x (insertionSortTasks xs)

/-- Model of the keyed in-place sort wrapped in the try block that swallows
exceptions. -/
def sort_owner_group (ts : List Task) : List Task :=
  if ts.all (fun t => (slotSortKey t).isSome) then insertionSortTasks ts else ts

/-! ### `build_morning_text` (lines 136-171) -/

/-- Model of the sub-task id expression, line 153: the first element of a
non-empty list, else nothing. -/
def sub_id_of (v : PyVal) : Option PyAtom :=
  match v with
  | .list (a :: _) => some a
  | _ => none

/-- Normalization of the service-category value, lines 158-159: a list is
replaced by its resolved label. -/
def sc_norm (v : PyVal) : PyAtom :=
  match v with
  | .list l => get_field_name (.list l)
  | .atom a => a

/-- The two conditional detail lines for a resolved sub-task (lines 153-164). -/
def sub_detail_lines (sub_val : PyVal) (m : List (PyAtom × SubRec)) : List String :=
  match sub_id_of sub_val with
  | none => []
  | some sid =>
    if sid.truthy then
      match lookupSub m sid with
      | none => []
      | some r =>
        let sc := sc_norm r.service_category
        (if sc.truthy then ["Service Category: " ++ sc.toStr] else []) ++
          (if r.units.truthy then ["No. of Units: " ++ r.units.toStr] else [])
    else []

/-- The sub-task line and its details (lines 149-164). -/
def sub_lines (t : Task) (m : List (PyAtom × SubRec)) : List String :=
  let sn := get_field_name t.x_studio_sub_task_1
  if sn.truthy then ("Sub Task: " ++ sn.toStr) :: sub_detail_lines t.x_studio_sub_task_1 m
  else []

/-- The parent-task block (lines 143-164). -/
def parent_lines (t : Task) (m : List (PyAtom × SubRec)) : List String :=
  let pn := get_field_name t.x_studio_parent_task
  if pn.truthy then ("Parent Task: " ++ pn.toStr) :: sub_lines t m
  else ["Parent Task: Missing Parent Task"]

/-- Model of reading a datetime field with an or-empty fallback (lines
166-167): the backend
delivers a string or `False`; any falsy value becomes the empty string. -/
def dt_str_of : DtVal → String
  | .val s => s
  | _ => ""

/-- The single conditional role line (lines 139-141). -/
def role_lines (t : Task) : List String :=
  let rn := get_field_name t.role_id
  if rn.truthy then ["Role: " ++ rn.toStr] else []

/-- The conditional date-range line (lines 165-170). -/
def date_lines (t : Task) : List String :=
  let dr := format_datetime_range (dt_str_of t.start_datetime) (dt_str_of t.end_datetime)
  if dr = "" then [] else ["Date Range: " ++ dr]

/-- The `lines` list accumulated by `build_morning_text`. -/
def build_morning_lines (t : Task) (m : List (PyAtom × SubRec)) : List String :=
  role_lines t ++ parent_lines t m ++ date_lines t

/-- Model of build_morning_text. -/
def build_morning_text (t : Task) (m : List (PyAtom × SubRec)) : String :=
  String.intercalate "\n" (build_morning_lines t m)

/-! ### Recap grouping and creator filtering (`main`, lines 387-393) -/

/-- A fetched `x_recaps` record. -/
structure Recap where
  create_uid : PyVal
  x_studio_shift : PyVal
  x_studio_recap_cat : PyVal
  x_studio_designer_summary : PyVal
  create_date : DtVal
  x_studio_parent_task : PyVal
  x_studio_subtask : PyVal
deriving DecidableEq, Repr

/-- Model of the creator-key expression of main, line 390. -/
def creator_key (r : Recap) : PyAtom :=
  match r.create_uid with
  | .list l => if 1 < l.length then l.getD 1 .aNone else .aStr "Unassigned"
  | .atom _ => .aStr "Unassigned"

/-- Python `designer_name in allowed_emp_names` where the set holds the
employee-name strings collected by `get_employees_from_favorites`. -/
def pyInNames (v : PyAtom) (names : List String) : Bool :=
  match v with
  | .aStr s => names.contains s
  | _ => false

/-- The recap grouping loop (lines 387-393): `allowed = none` models
`allowed_emp_names is None` (no favorites selected); otherwise a record
whose creator key is not in the set is skipped. -/
def group_recaps (recs : List Recap) (allowed : Option (List String)) :
    List (PyAtom × List Recap) :=
  recs.foldl
    (fun g r =>
      let k := creator_key r
      match allowed with
      | some names => if pyInNames k names then insertGrouped g k r else g
      | none => insertGrouped g k r)
    []

/-! ### Auxiliary definitions used by the statements -/

/-- Date-field validity (the part of the `datetime` constructor checks that
day arithmetic preserves). -/
def DayOk (dt : DateTime) : Prop :=
  1 ≤ dt.year ∧ 1 ≤ dt.month ∧ dt.month ≤ 12 ∧ 1 ≤ dt.day ∧
    dt.day ≤ daysInMonth dt.year dt.month

/-- The line starts with the given fixed label. -/
def isTagged (tag l : String) : Prop := ∃ w : List Char, l.data = tag.data ++ w

/-- The conditions under which the Service Category detail line can appear:
the sub-task id is truthy, resolves in the detail map, and the normalized
category value is truthy. -/
def scCond (t : Task) (m : List (PyAtom × SubRec)) : Bool :=
  match sub_id_of t.x_studio_sub_task_1 with
  | some sid =>
    sid.truthy &&
      (match lookupSub m sid with
       | some r => (sc_norm r.service_category).truthy
       | none => false)
  | none => false

/-- The conditions under which the No. of Units detail line can appear. -/
def unitsCond (t : Task) (m : List (PyAtom × SubRec)) : Bool :=
  match sub_id_of t.x_studio_sub_task_1 with
  | some sid =>
    sid.truthy &&
      (match lookupSub m sid with
       | some r => r.units.truthy
       | none => false)
  | none => false

/-- Malformed-or-missing relation reference: anything but a list of length
at least two. -/
def malformedRef (v : PyVal) : Prop :=
  match v with
  | .list l => l.length ≤ 1
  | .atom _ => True

/-! ### Concrete fixtures for witnesses and counterexamples -/

/-- A record with every field unset. -/
def taskBlank : Task :=
  ⟨.atom .aFalse, .atom .aFalse, .atom .aFalse, .atom .aFalse, .absent, .absent⟩

/-- Owner reference present but with an empty label. -/
def taskEmptyLabelOwner : Task :=
  { taskBlank with resource_id := .list [.aInt 5, .aStr ""] }

/-- A record with a well-formed start timestamp. -/
def taskStartA : Task :=
  { taskBlank with start_datetime := .val "2024-01-02 00:00:00" }

/-- A record with an unparsable start timestamp. -/
def taskStartBad : Task :=
  { taskBlank with start_datetime := .val "garbage" }

/-- A fully populated record. -/
def taskFull : Task :=
  ⟨.list [.aInt 9, .aStr "Designer"], .list [.aInt 1, .aStr "Role1"],
    .list [.aInt 2, .aStr "Parent"], .list [.aInt 3, .aStr "Sub"],
    .val "2024-01-01 09:00:00", .val "2024-01-01 10:00:00"⟩

/-- A detail map resolving the sub-task id of taskFull. -/
def subMapFull : List (PyAtom × SubRec) :=
  [(.aInt 3, ⟨.atom (.aStr "Cat"), .atom (.aInt 4)⟩)]

/-- A recap whose creator label is `"Alice"`. -/
def recapAlice : Recap :=
  ⟨.list [.aInt 6, .aStr "Alice"], .atom .aFalse, .atom .aFalse, .atom .aFalse,
    .absent, .atom .aFalse, .atom .aFalse⟩

/-- A recap whose creator label is `"Bob"`. -/
def recapBob : Recap :=
  ⟨.list [.aInt 7, .aStr "Bob"], .atom .aFalse, .atom .aFalse, .atom .aFalse,
    .absent, .atom .aFalse, .atom .aFalse⟩

/-- A recap with an unset creator reference. -/
def recapNoCreator : Recap :=
  ⟨.atom .aFalse, .atom .aFalse, .atom .aFalse, .atom .aFalse,
    .absent, .atom .aFalse, .atom .aFalse⟩

/-! ## Lemmas about the grouping dictionary -/

theorem lookupGrouped_insertGrouped {α : Type} (g : List (PyAtom × List α)) (k k2 : PyAtom)
    (x : α) :
    lookupGrouped k (insertGrouped g k2 x) =
      lookupGrouped k g ++ (if k2 = k then [x] else []) := by
  induction g with
  | nil =>
    by_cases h : k2 = k <;> simp [insertGrouped, lookupGrouped, h]
  | cons p rest ih =>
    obtain ⟨k0, xs⟩ := p
    by_cases h1 : k0 = k2
    · subst h1
      by_cases h2 : k0 = k <;> simp [insertGrouped, lookupGrouped, h2]
    · by_cases h2 : k0 = k
      · subst h2
        have h3 : ¬ k2 = k0 := fun h => h1 h.symm
        simp [insertGrouped, lookupGrouped, h1, h3]
      · simp [insertGrouped, lookupGrouped, h1, h2, ih]

theorem flattenGrouped_insertGrouped {α : Type} (g : List (PyAtom × List α)) (k : PyAtom)
    (x : α) :
    (flattenGrouped (insertGrouped g k x)).Perm (flattenGrouped g ++ [x]) := by
  induction g with
  | nil => simp [insertGrouped, flattenGrouped]
  | cons p rest ih =>
    obtain ⟨k0, xs⟩ := p
    by_cases h1 : k0 = k
    · subst h1
      simp only [insertGrouped, if_pos rfl, flattenGrouped, List.append_assoc]
      have hperm : (([x] : List α) ++ flattenGrouped rest).Perm (flattenGrouped rest ++ [x]) :=
        List.perm_append_comm
      exact List.Perm.append_left xs hperm
    · simp only [insertGrouped, if_neg h1, flattenGrouped, List.append_assoc]
      exact List.Perm.append_left xs ih

theorem groupedKeys_insertGrouped {α : Type} (g : List (PyAtom × List α)) (k : PyAtom)
    (x : α) :
    groupedKeys (insertGrouped g k x) =
      if k ∈ groupedKeys g then groupedKeys g else groupedKeys g ++ [k] := by
  induction g with
  | nil => simp [insertGrouped, groupedKeys]
  | cons p rest ih =>
    obtain ⟨k0, xs⟩ := p
    by_cases h1 : k0 = k
    · subst h1
      simp [insertGrouped, groupedKeys]
    · have h2 : ¬ k = k0 := fun h => h1 h.symm
      simp only [insertGrouped, if_neg h1, groupedKeys, List.map_cons] at ih ⊢
      rw [ih]
      simp only [List.mem_cons, h2, false_or]
      by_cases h3 : k ∈ List.map Prod.fst rest <;> simp [h3]

theorem nodup_groupedKeys_insertGrouped {α : Type} (g : List (PyAtom × List α)) (k : PyAtom)
    (x : α) (h : (groupedKeys g).Nodup) : (groupedKeys (insertGrouped g k x)).Nodup := by
  rw [groupedKeys_insertGrouped]
  by_cases hm : k ∈ groupedKeys g
  · simpa [hm] using h
  · simp only [if_neg hm]
    simp [List.nodup_append, h, hm]

/-- Every stored element of `insertGrouped g k x` was stored in `g`, or is `x`. -/
theorem mem_insertGrouped {α : Type} {g : List (PyAtom × List α)} {k : PyAtom} {x : α}
    {p : PyAtom × List α} {y : α} (hp : p ∈ insertGrouped g k x) (hy : y ∈ p.2) :
    (∃ q ∈ g, y ∈ q.2) ∨ y = x := by
  induction g with
  | nil =>
    have hpx : p = (k, [x]) := by simpa [insertGrouped] using hp
    subst hpx
    exact Or.inr (by simpa using hy)
  | cons q rest ih =>
    obtain ⟨k0, xs⟩ := q
    by_cases h1 : k0 = k
    · subst h1
      rw [show insertGrouped ((k0, xs) :: rest) k0 x = (k0, xs ++ [x]) :: rest from by
        simp [insertGrouped]] at hp
      rcases List.mem_cons.mp hp with hp1 | hp1
      · subst hp1
        rcases List.mem_append.mp hy with hy1 | hy1
        · exact Or.inl ⟨(k0, xs), List.mem_cons_self _ _, hy1⟩
        · exact Or.inr (by simpa using hy1)
      · exact Or.inl ⟨p, List.mem_cons_of_mem _ hp1, hy⟩
    · rw [show insertGrouped ((k0, xs) :: rest) k x = (k0, xs) :: insertGrouped rest k x from by
        simp [insertGrouped, h1]] at hp
      rcases List.mem_cons.mp hp with hp1 | hp1
      · subst hp1
        exact Or.inl ⟨(k0, xs), List.mem_cons_self _ _, hy⟩
      · rcases ih hp1 with ⟨q, hq, hyq⟩ | hx
        · exact Or.inl ⟨q, List.mem_cons_of_mem _ hq, hyq⟩
        · exact Or.inr hx

/-- Every key of `insertGrouped g k x` is a key of `g`, or is `k`. -/
theorem key_mem_insertGrouped {α : Type} {g : List (PyAtom × List α)} {k : PyAtom} {x : α}
    {p : PyAtom × List α} (hp : p ∈ insertGrouped g k x) :
    p.1 ∈ groupedKeys g ∨ p.1 = k := by
  induction g with
  | nil =>
    have hpx : p = (k, [x]) := by simpa [insertGrouped] using hp
    subst hpx
    exact Or.inr rfl
  | cons q rest ih =>
    obtain ⟨k0, xs⟩ := q
    by_cases h1 : k0 = k
    · subst h1
      rw [show insertGrouped ((k0, xs) :: rest) k0 x = (k0, xs ++ [x]) :: rest from by
        simp [insertGrouped]] at hp
      rcases List.mem_cons.mp hp with hp1 | hp1
      · subst hp1
        exact Or.inr rfl
      · exact Or.inl (by
          simp only [groupedKeys, List.map_cons, List.mem_cons]
          exact Or.inr (List.mem_map_of_mem _ hp1))
    · rw [show insertGrouped ((k0, xs) :: rest) k x = (k0, xs) :: insertGrouped rest k x from by
        simp [insertGrouped, h1]] at hp
      rcases List.mem_cons.mp hp with hp1 | hp1
      · subst hp1
        exact Or.inl (by simp [groupedKeys])
      · rcases ih hp1 with hm | hk
        · exact Or.inl (by
            simp only [groupedKeys, List.map_cons, List.mem_cons]
            exact Or.inr (by simpa [groupedKeys] using hm))
        · exact Or.inr hk

/-! ## The owner grouping as a whole -/

theorem lookupGrouped_fold_owner (ts : List Task) (g : List (PyAtom × List Task))
    (k : PyAtom) :
    lookupGrouped k (ts.foldl (fun g t => insertGrouped g (designer_of t) t) g) =
      lookupGrouped k g ++ ts.filter (fun t => designer_of t == k) := by
  induction ts generalizing g with
  | nil => simp
  | cons t ts ih =>
    simp only [List.foldl_cons, List.filter_cons]
    rw [ih, lookupGrouped_insertGrouped]
    by_cases h : designer_of t = k
    · simp [h]
    · simp [h]

theorem flattenGrouped_fold_owner (ts : List Task) (g : List (PyAtom × List Task)) :
    (flattenGrouped (ts.foldl (fun g t => insertGrouped g (designer_of t) t) g)).Perm
      (flattenGrouped g ++ ts) := by
  induction ts generalizing g with
  | nil => simp
  | cons t ts ih =>
    simp only [List.foldl_cons]
    refine (ih (insertGrouped g (designer_of t) t)).trans ?_
    have h1 := flattenGrouped_insertGrouped g (designer_of t) t
    refine (h1.append_right ts).trans ?_
    simp

theorem nodup_keys_fold_owner (ts : List Task) (g : List (PyAtom × List Task))
    (h : (groupedKeys g).Nodup) :
    (groupedKeys (ts.foldl (fun g t => insertGrouped g (designer_of t) t) g)).Nodup := by
  induction ts generalizing g with
  | nil => simpa
  | cons t ts ih =>
    simp only [List.foldl_cons]
    exact ih _ (nodup_groupedKeys_insertGrouped _ _ _ h)

/-! ## The recap grouping as a whole -/

/-- In the filtered recap fold, every stored record passed the allow-test and
every key passed the allow-test. -/
theorem group_recaps_invariant (recs : List Recap) (names : List String)
    (g : List (PyAtom × List Recap))
    (hg : ∀ p ∈ g, (∀ y ∈ p.2, pyInNames (creator_key y) names = true) ∧
      pyInNames p.1 names = true) :
    ∀ p ∈ recs.foldl
        (fun g r =>
          let k := creator_key r
          if pyInNames k names then insertGrouped g k r else g) g,
      (∀ y ∈ p.2, pyInNames (creator_key y) names = true) ∧ pyInNames p.1 names = true := by
  induction recs generalizing g with
  | nil => exact fun p hp => hg p hp
  | cons r recs ih =>
    simp only [List.foldl_cons]
    by_cases h : pyInNames (creator_key r) names = true
    · simp only [h, if_true]
      refine ih _ ?_
      intro p hp
      constructor
      · intro y hy
        rcases mem_insertGrouped hp hy with ⟨q, hq, hyq⟩ | hyx
        · exact (hg q hq).1 y hyq
        · subst hyx; exact h
      · rcases key_mem_insertGrouped hp with hm | hk
        · obtain ⟨q, hq, hqk⟩ := List.mem_map.mp hm
          exact hqk ▸ (hg q hq).2
        · exact hk ▸ h
    · simp only [Bool.not_eq_true] at h
      simp only [h, Bool.false_eq_true, if_false]
      exact ih _ hg

/-- The fold inside `group_recaps` with a provided allow-set, named for reuse. -/
theorem group_recaps_some_invariant (recs : List Recap) (names : List String) :
    ∀ p ∈ group_recaps recs (some names),
      (∀ y ∈ p.2, pyInNames (creator_key y) names = true) ∧ pyInNames p.1 names = true := by
  have h := group_recaps_invariant recs names [] (by simp)
  intro p hp
  exact h p hp

/-! ## Sorting lemmas -/

theorem insertSorted_perm (x : Task) (l : List Task) :
    (insertSorted x l).Perm (x :: l) := by
  induction l with
  | nil => simp [insertSorted]
  | cons y ys ih =>
    by_cases h : keyOrDefault x ≤ keyOrDefault y
    · simp [insertSorted, h]
    · simp only [insertSorted, if_neg h]
      exact (ih.cons y).trans (List.Perm.swap x y ys)

theorem insertionSortTasks_perm (l : List Task) : (insertionSortTasks l).Perm l := by
  induction l with
  | nil => simp [insertionSortTasks]
  | cons x xs ih =>
    exact (insertSorted_perm x (insertionSortTasks xs)).trans (ih.cons x)

/-- Stability of a single insertion, phrased through the notion the claim uses of
"equal start timestamps": among the records whose parsed start is a fixed
value, insertion puts the new record first and keeps the others in order. -/
theorem filter_insertSorted (v : DateTime) (x : Task) (l : List Task) :
    (insertSorted x l).filter (fun t => slotSortKey t == some v) =
      if slotSortKey x == some v then
        x :: l.filter (fun t => slotSortKey t == some v)
      else l.filter (fun t => slotSortKey t == some v) := by
  induction l with
  | nil => by_cases h : slotSortKey x == some v <;> simp [insertSorted, List.filter, h]
  | cons y ys ih =>
    by_cases h : keyOrDefault x ≤ keyOrDefault y
    · by_cases hx : slotSortKey x = some v <;>
        simp [insertSorted, h, List.filter_cons, hx]
    · simp only [insertSorted, if_neg h, List.filter_cons]
      by_cases hx : slotSortKey x = some v
      · have hy : ¬ slotSortKey y = some v := by
          intro hy
          apply h
          simp [keyOrDefault, hx, hy]
        simp [hx, hy, ih]
      · by_cases hy : slotSortKey y = some v <;> simp [hx, hy, ih]

/-- Stability of the whole insertion sort. -/
theorem filter_insertionSortTasks (v : DateTime) (l : List Task) :
    (insertionSortTasks l).filter (fun t => slotSortKey t == some v) =
      l.filter (fun t => slotSortKey t == some v) := by
  induction l with
  | nil => rfl
  | cons x xs ih =>
    rw [show insertionSortTasks (x :: xs) = insertSorted x (insertionSortTasks xs) from rfl,
      filter_insertSorted, List.filter_cons]
    by_cases hx : slotSortKey x = some v <;> simp [hx, ih]

/-! ## Calendar arithmetic lemmas -/

theorem daysInMonth_pos (y m : Nat) : 1 ≤ daysInMonth y m := by
  unfold daysInMonth
  split
  · split <;> omega
  · split <;> omega

theorem daysBeforeMonth_succ (y m : Nat) (h : 1 ≤ m) :
    daysBeforeMonth y (m + 1) = daysBeforeMonth y m + daysInMonth y m := by
  obtain ⟨n, rfl⟩ : ∃ n, m = n + 1 := ⟨m - 1, by omega⟩
  rfl

theorem daysBeforeMonth_year (y : Nat) :
    daysBeforeMonth y 12 + daysInMonth y 12 = 365 + (if isLeap y then 1 else 0) := by
  have h12 : daysBeforeMonth y 12 =
      0 + 31 + (if isLeap y then 29 else 28) + 31 + 30 + 31 + 30 + 31 + 31 + 30 + 31 + 30 :=
    rfl
  have hdec : daysInMonth y 12 = 31 := rfl
  rw [h12, hdec]
  cases isLeap y <;> norm_num

set_option maxHeartbeats 1600000 in
theorem toOrdinal_addOneDay (dt : DateTime) (h : DayOk dt) :
    toOrdinal (addOneDay dt).year (addOneDay dt).month (addOneDay dt).day =
      toOrdinal dt.year dt.month dt.day + 1 ∧ DayOk (addOneDay dt) := by
  obtain ⟨hy, hm1, hm2, hd1, hd2⟩ := h
  unfold addOneDay
  by_cases hlt : dt.day < daysInMonth dt.year dt.month
  · rw [if_pos hlt]
    refine ⟨?_, ?_, ?_, ?_, ?_, ?_⟩
    · show toOrdinal dt.year dt.month (dt.day + 1) = toOrdinal dt.year dt.month dt.day + 1
      simp only [toOrdinal]
      omega
    · exact hy
    · exact hm1
    · exact hm2
    · show 1 ≤ dt.day + 1
      omega
    · show dt.day + 1 ≤ daysInMonth dt.year dt.month
      omega
  · rw [if_neg hlt]
    have hde : dt.day = daysInMonth dt.year dt.month := by omega
    by_cases hm12 : dt.month < 12
    · rw [if_pos hm12]
      refine ⟨?_, ?_, ?_, ?_, ?_, ?_⟩
      · show toOrdinal dt.year (dt.month + 1) 1 = toOrdinal dt.year dt.month dt.day + 1
        simp only [toOrdinal, daysBeforeMonth_succ dt.year dt.month hm1]
        omega
      · exact hy
      · show 1 ≤ dt.month + 1
        omega
      · show dt.month + 1 ≤ 12
        omega
      · exact le_refl 1
      · show 1 ≤ daysInMonth dt.year (dt.month + 1)
        exact daysInMonth_pos _ _
    · rw [if_neg hm12]
      have hm : dt.month = 12 := by omega
      refine ⟨?_, ?_, ?_, ?_, ?_, ?_⟩
      · show toOrdinal (dt.year + 1) 1 1 = toOrdinal dt.year dt.month dt.day + 1
        have hyr := daysBeforeMonth_year dt.year
        have hd0 : daysBeforeMonth (dt.year + 1) 1 = 0 := rfl
        rw [hm] at hde
        simp only [toOrdinal, hm, hd0]
        cases hl : isLeap dt.year with
        | false =>
          have hmod := hl
          simp only [isLeap, Bool.or_eq_false_iff, Bool.and_eq_false_iff,
            beq_eq_false_iff_ne, bne_eq_false_iff_eq, ne_eq] at hmod
          rw [hl] at hyr
          norm_num at hyr
          obtain ⟨hmod2, hmod3⟩ := hmod
          rcases hmod2 with hmod2 | hmod2 <;> omega
        | true =>
          have hmod := hl
          simp only [isLeap, Bool.or_eq_true, Bool.and_eq_true, beq_iff_eq,
            bne_iff_ne, ne_eq] at hmod
          rw [hl] at hyr
          norm_num at hyr
          rcases hmod with ⟨hmod2, hmod3⟩ | hmod2 <;> omega
      · show 1 ≤ dt.year + 1
        omega
      · exact le_refl 1
      · show (1 : Nat) ≤ 12
        omega
      · exact le_refl 1
      · show 1 ≤ daysInMonth (dt.year + 1) 1
        exact daysInMonth_pos _ _

theorem addOneDay_time (dt : DateTime) :
    (addOneDay dt).hour = dt.hour ∧ (addOneDay dt).minute = dt.minute ∧
      (addOneDay dt).second = dt.second := by
  unfold addOneDay
  split
  · exact ⟨rfl, rfl, rfl⟩
  · split
    · exact ⟨rfl, rfl, rfl⟩
    · exact ⟨rfl, rfl, rfl⟩

theorem addDays_spec (n : Nat) (dt : DateTime) (h : DayOk dt) :
    toOrdinal (addDays dt n).year (addDays dt n).month (addDays dt n).day =
        toOrdinal dt.year dt.month dt.day + n ∧
      DayOk (addDays dt n) ∧ (addDays dt n).hour = dt.hour ∧
      (addDays dt n).minute = dt.minute ∧ (addDays dt n).second = dt.second := by
  induction n generalizing dt with
  | zero => exact ⟨rfl, h, rfl, rfl, rfl⟩
  | succ n ih =>
    obtain ⟨h1, h2⟩ := toOrdinal_addOneDay dt h
    obtain ⟨t1, t2, t3⟩ := addOneDay_time dt
    obtain ⟨i1, i2, i3, i4, i5⟩ := ih (addOneDay dt) h2
    refine ⟨?_, i2, ?_, ?_, ?_⟩
    · show toOrdinal (addDays (addOneDay dt) n).year (addDays (addOneDay dt) n).month
        (addDays (addOneDay dt) n).day = toOrdinal dt.year dt.month dt.day + (n + 1)
      omega
    · show (addDays (addOneDay dt) n).hour = dt.hour
      omega
    · show (addDays (addOneDay dt) n).minute = dt.minute
      omega
    · show (addDays (addOneDay dt) n).second = dt.second
      omega

/-- Validity of a parsed datetime, from the constructor checks. -/
theorem strptime_valid {s : String} {dt : DateTime} (h : strptime s = some dt) :
    DayOk dt ∧ dt.year ≤ 9999 ∧ dt.hour ≤ 23 ∧ dt.minute ≤ 59 ∧ dt.second ≤ 59 := by
  unfold strptime at h
  rcases hc : (dtCands s.data).head? with _ | ⟨⟨y, mo, da, ho, mi, se⟩⟩ <;> rw [hc] at h
  · exact absurd (show (none : Option DateTime) = some dt from h) (by simp)
  · have h2 : datetimeCtor y mo da ho mi se = some dt := h
    unfold datetimeCtor at h2
    split at h2
    · rename_i hg
      obtain rfl := Option.some.inj h2
      simp only [Bool.and_eq_true, decide_eq_true_eq] at hg
      obtain ⟨⟨⟨⟨⟨⟨⟨⟨hy1, hy2⟩, hmo1⟩, hmo2⟩, hda1⟩, hda2⟩, hho⟩, hmi⟩, hse⟩ := hg
      exact ⟨⟨hy1, hmo1, hmo2, hda1, hda2⟩, hy2, hho, hmi, hse⟩
    · exact absurd h2 (by simp)

/-- Hour addition adds exactly 3600 times h seconds whenever it does not
overflow. -/
theorem addHours_totalSec {dt dt2 : DateTime} {h : Nat} (hv : DayOk dt)
    (hh : addHours dt h = some dt2) : totalSec dt2 = totalSec dt + 3600 * h := by
  simp only [addHours] at hh
  split at hh
  · next hy =>
      obtain rfl := Option.some.inj hh
      have hvm : DayOk ({ dt with hour := (dt.hour + h) % 24 } : DateTime) := hv
      obtain ⟨o1, o2, o3, o4, o5⟩ := addDays_spec ((dt.hour + h) / 24)
        ({ dt with hour := (dt.hour + h) % 24 }) hvm
      have e1 : ({ dt with hour := (dt.hour + h) % 24 } : DateTime).year = dt.year := rfl
      have e2 : ({ dt with hour := (dt.hour + h) % 24 } : DateTime).month = dt.month := rfl
      have e3 : ({ dt with hour := (dt.hour + h) % 24 } : DateTime).day = dt.day := rfl
      have e4 : ({ dt with hour := (dt.hour + h) % 24 } : DateTime).hour =
        (dt.hour + h) % 24 := rfl
      have e5 : ({ dt with hour := (dt.hour + h) % 24 } : DateTime).minute = dt.minute := rfl
      have e6 : ({ dt with hour := (dt.hour + h) % 24 } : DateTime).second = dt.second := rfl
      rw [e1, e2, e3] at o1
      rw [e4] at o3
      rw [e5] at o4
      rw [e6] at o5
      simp only [totalSec, o1, o3, o4, o5]
      omega
  · exact absurd hh (by simp)

/-! ## Line-shape lemmas for the morning text block -/

theorem isTagged_self_append (tag v : String) : isTagged tag (tag ++ v) :=
  ⟨v.data, by rw [String.data_append]⟩

theorem append_ne_of_mismatch {p q : List Char} (i : Nat) (hi : i < p.length)
    (hj : i < q.length) (hne : p[i]? ≠ q[i]?) (v w : List Char) : p ++ v ≠ q ++ w := by
  intro h
  apply hne
  have h1 : (p ++ v)[i]? = p[i]? := List.getElem?_append_left hi
  have h2 : (q ++ w)[i]? = q[i]? := List.getElem?_append_left hj
  rw [← h1, ← h2, h]

theorem not_isTagged_of_mismatch {tag p : String} (i : Nat) (hi : i < p.data.length)
    (hj : i < tag.data.length) (hne : p.data[i]? ≠ tag.data[i]?) (v : String) :
    ¬ isTagged tag (p ++ v) := by
  rintro ⟨w, hw⟩
  rw [String.data_append] at hw
  exact append_ne_of_mismatch i hi hj hne v.data w hw

theorem not_isTagged_concrete {tag c : String} (i : Nat)
    (hj : i < tag.data.length) (hne : c.data[i]? ≠ tag.data[i]?) : ¬ isTagged tag c := by
  rintro ⟨w, hw⟩
  apply hne
  rw [hw, List.getElem?_append_left hj]

theorem mem_role_lines {t : Task} {l : String} (h : l ∈ role_lines t) :
    (get_field_name t.role_id).truthy = true ∧
      l = "Role: " ++ (get_field_name t.role_id).toStr := by
  unfold role_lines at h
  by_cases h1 : (get_field_name t.role_id).truthy
  · simp only [h1, if_true, List.mem_singleton] at h
    exact ⟨h1, h⟩
  · simp [h1] at h

theorem mem_date_lines {t : Task} {l : String} (h : l ∈ date_lines t) :
    format_datetime_range (dt_str_of t.start_datetime) (dt_str_of t.end_datetime) ≠ "" ∧
      ∃ v, l = "Date Range: " ++ v := by
  unfold date_lines at h
  by_cases h1 :
      format_datetime_range (dt_str_of t.start_datetime) (dt_str_of t.end_datetime) = ""
  · simp [h1] at h
  · simp only [h1, if_neg, if_false, List.mem_singleton] at h
    exact ⟨h1, _, h⟩

theorem mem_sub_detail_lines {t : Task} {m : List (PyAtom × SubRec)} {l : String}
    (h : l ∈ sub_detail_lines t.x_studio_sub_task_1 m) :
    (scCond t m = true ∧ ∃ v, l = "Service Category: " ++ v) ∨
      (unitsCond t m = true ∧ ∃ v, l = "No. of Units: " ++ v) := by
  unfold sub_detail_lines at h
  split at h
  · exact absurd h (List.not_mem_nil l)
  · rename_i sid hsid
    split at h
    · rename_i ht
      split at h
      · exact absurd h (List.not_mem_nil l)
      · rename_i r hlk
        rcases List.mem_append.mp h with h2 | h2
        · split at h2
          · rename_i hsc
            obtain rfl := List.mem_singleton.mp h2
            exact Or.inl ⟨by simp [scCond, hsid, ht, hlk, hsc], _, rfl⟩
          · exact absurd h2 (List.not_mem_nil l)
        · split at h2
          · rename_i hu
            obtain rfl := List.mem_singleton.mp h2
            exact Or.inr ⟨by simp [unitsCond, hsid, ht, hlk, hu], _, rfl⟩
          · exact absurd h2 (List.not_mem_nil l)
    · exact absurd h (List.not_mem_nil l)

theorem mem_sub_lines {t : Task} {m : List (PyAtom × SubRec)} {l : String}
    (h : l ∈ sub_lines t m) :
    (get_field_name t.x_studio_sub_task_1).truthy = true ∧
      (l = "Sub Task: " ++ (get_field_name t.x_studio_sub_task_1).toStr ∨
        l ∈ sub_detail_lines t.x_studio_sub_task_1 m) := by
  unfold sub_lines at h
  by_cases h1 : (get_field_name t.x_studio_sub_task_1).truthy
  · simp only [h1, if_true, List.mem_cons] at h
    exact ⟨h1, h⟩
  · simp [h1] at h

theorem mem_parent_lines {t : Task} {m : List (PyAtom × SubRec)} {l : String}
    (h : l ∈ parent_lines t m) :
    ((get_field_name t.x_studio_parent_task).truthy = false ∧
        l = "Parent Task: Missing Parent Task") ∨
      ((get_field_name t.x_studio_parent_task).truthy = true ∧
        (l = "Parent Task: " ++ (get_field_name t.x_studio_parent_task).toStr ∨
          l ∈ sub_lines t m)) := by
  unfold parent_lines at h
  by_cases h1 : (get_field_name t.x_studio_parent_task).truthy
  · simp only [h1, if_true, List.mem_cons] at h
    exact Or.inr ⟨h1, h⟩
  · rw [if_neg h1] at h
    exact Or.inl ⟨by simpa using h1, List.mem_singleton.mp h⟩

/-- Full decomposition of a line of the morning block. -/
theorem mem_build_morning_lines {t : Task} {m : List (PyAtom × SubRec)} {l : String}
    (h : l ∈ build_morning_lines t m) :
    l ∈ role_lines t ∨ l ∈ parent_lines t m ∨ l ∈ date_lines t := by
  unfold build_morning_lines at h
  rcases List.mem_append.mp h with h1 | h1
  · rcases List.mem_append.mp h1 with h2 | h2
    · exact Or.inl h2
    · exact Or.inr (Or.inl h2)
  · exact Or.inr (Or.inr h1)

/-! ## Claims -/

/-- C1: `combine_domains_or` of no domains is the empty predicate, of a
single domain is that domain unchanged, and of more domains is the left
fold that places the prefix-OR token before the concatenation of the two
operand subsequences, e.g. three domains give `OR(OR(t1,t2),t3)`. -/
theorem C1_combine_or_left_fold :
    combine_domains_or [] = [] ∧
    (∀ t : List DomTok, combine_domains_or [t] = t) ∧
    (∀ t1 t2 t3 : List DomTok,
      combine_domains_or [t1, t2, t3] =
        DomTok.orTok :: ((DomTok.orTok :: (t1 ++ t2)) ++ t3)) ∧
    (∀ (ds : List (List DomTok)) (d : List DomTok), ds ≠ [] →
      combine_domains_or (ds ++ [d]) =
        DomTok.orTok :: (combine_domains_or ds ++ d)) := by
  refine ⟨rfl, fun t => rfl, fun t1 t2 t3 => rfl, ?_⟩
  intro ds d hne
  match ds with
  | d0 :: rest =>
    show ((rest ++ [d]).foldl (fun combined d => DomTok.orTok :: combined ++ d) d0) = _
    rw [List.foldl_append]
    rfl

/-- C1 witness: the fold law applied at two concrete domains. -/
theorem C1_combine_or_witness :
    combine_domains_or [[DomTok.cond "f" "=" (.aInt 1)], [DomTok.cond "g" "=" (.aInt 2)]] =
      DomTok.orTok ::
        (combine_domains_or [[DomTok.cond "f" "=" (.aInt 1)]] ++ [DomTok.cond "g" "=" (.aInt 2)]) :=
  C1_combine_or_left_fold.2.2.2 [[DomTok.cond "f" "=" (.aInt 1)]]
    [DomTok.cond "g" "=" (.aInt 2)] (by decide)

/-- C5: the tail of the combined formatter returns the empty string when both
parts are empty, the start alone when the end is empty, and
`"start -> end"` otherwise. -/
theorem C5_format_range_spec :
    format_range "" "" = "" ∧ (∀ s : String, format_range s "" = s) ∧
    (∀ a b : String, b ≠ "" → format_range a b = a ++ " -> " ++ b) := by
  refine ⟨rfl, fun s => rfl, ?_⟩
  intro a b hb
  simp [format_range, hb]

/-- C5 witness: the non-empty case at concrete strings. -/
theorem C5_format_range_witness :
    format_range "2024-01-01 09:00:00" "2024-01-01 10:00:00" =
      "2024-01-01 09:00:00" ++ " -> " ++ "2024-01-01 10:00:00" :=
  C5_format_range_spec.2.2 "2024-01-01 09:00:00" "2024-01-01 10:00:00" (by decide)

/-- C9: the shift fallback is all-or-nothing: if either string is non-empty
and fails to parse, both ends of the range are rendered as the original,
unshifted strings. -/
theorem C9_joint_fallback (s e : String)
    (h : (s ≠ "" ∧ strptime s = none) ∨ (e ≠ "" ∧ strptime e = none)) :
    format_datetime_range s e = format_range s e := by
  rcases h with ⟨h1, h2⟩ | ⟨h1, h2⟩
  · have hn : shiftOpt s = none := by simp [shiftOpt, h1, h2]
    unfold format_datetime_range
    rw [hn]
  · have hn : shiftOpt e = none := by simp [shiftOpt, h1, h2]
    unfold format_datetime_range
    rw [hn]
    cases shiftOpt s <;> rfl

/-- C9 witness: a malformed start drags a well-formed end down with it. -/
theorem C9_joint_fallback_witness :
    format_datetime_range "garbage" "2024-01-01 00:00:00" =
      format_range "garbage" "2024-01-01 00:00:00" :=
  C9_joint_fallback "garbage" "2024-01-01 00:00:00" (Or.inl ⟨by decide, by decide⟩)

/-- C4 (amended): for every fixed-format timestamp whose three-hour shift
stays inside the representable year range, the shift adds exactly three
hours (10800 seconds) and reformats in the same fixed format; a string that
fails to parse — or whose shifted value would pass year 9999 — is returned
unchanged. -/
theorem C4_shift_and_format_spec :
    (∀ (s : String) (d d2 : DateTime), strptime s = some d → addHours d 3 = some d2 →
      shift_and_format s 3 = strftime d2 ∧ totalSec d2 = totalSec d + 3 * 3600) ∧
    (∀ s : String, strptime s = none → shift_and_format s 3 = s) ∧
    (∀ (s : String) (d : DateTime), strptime s = some d → addHours d 3 = none →
      shift_and_format s 3 = s) ∧
    shift_and_format "2024-01-01 00:00:00" 3 = "2024-01-01 03:00:00" ∧
    (∀ s : String, s ≠ "" → format_datetime_range s "" = shift_and_format s 3) := by
  refine ⟨?_, ?_, ?_, by decide, ?_⟩
  · intro s d d2 h1 h2
    constructor
    · simp [shift_and_format, h1, h2]
    · have h3 := addHours_totalSec (strptime_valid h1).1 h2
      omega
  · intro s h1
    simp [shift_and_format, h1]
  · intro s d h1 h2
    simp [shift_and_format, h1, h2]
  · intro s hs
    cases h1 : strptime s with
    | none =>
      simp [format_datetime_range, shift_and_format, shiftOpt, format_range, hs, h1]
    | some d =>
      cases h2 : addHours d 3 with
      | none =>
        simp [format_datetime_range, shift_and_format, shiftOpt, format_range, hs, h1, h2]
      | some d2 =>
        simp [format_datetime_range, shift_and_format, shiftOpt, format_range, hs, h1, h2]

/-- C4 witness: a concrete shift across a year boundary. -/
theorem C4_shift_and_format_witness :
    shift_and_format "2024-12-31 23:30:00" 3 = strftime ⟨2025, 1, 1, 2, 30, 0⟩ ∧
      totalSec ⟨2025, 1, 1, 2, 30, 0⟩ = totalSec ⟨2024, 12, 31, 23, 30, 0⟩ + 3 * 3600 :=
  C4_shift_and_format_spec.1 "2024-12-31 23:30:00" ⟨2024, 12, 31, 23, 30, 0⟩
    ⟨2025, 1, 1, 2, 30, 0⟩ (by decide) (by decide)

/-- C4 counterexample: `"9999-12-31 23:00:00"` is a fixed-format timestamp,
yet the operation returns it unchanged (the three-hour shift overflows the
year range and the exception handler falls back to the input), so the claim
that every fixed-format timestamp is shifted by three hours fails here. -/
theorem C4_shift_overflow_counterexample :
    (strptime "9999-12-31 23:00:00").isSome = true ∧
      shift_and_format "9999-12-31 23:00:00" 3 = "9999-12-31 23:00:00" := by
  constructor
  · decide
  · decide

/-- C2 (amended): grouping by owner is a partition — the multiset union of
the groups is the input, keys are pairwise distinct, and the group stored
under a key holds exactly the records whose designer key equals it — where
the designer key is the second element of the owner reference whenever that
reference is a list of length at least two (even if that element is the
empty string), and the sentinel `"Unassigned"` otherwise. -/
theorem C2_group_by_owner_partition (ts : List Task) :
    (∀ k : PyAtom,
      lookupGrouped k (group_by_owner ts) = ts.filter (fun t => designer_of t == k)) ∧
    (flattenGrouped (group_by_owner ts)).Perm ts ∧
    (groupedKeys (group_by_owner ts)).Nodup := by
  refine ⟨?_, ?_, ?_⟩
  · intro k
    have h := lookupGrouped_fold_owner ts [] k
    simpa [group_by_owner, lookupGrouped] using h
  · have h := flattenGrouped_fold_owner ts []
    simpa [group_by_owner, flattenGrouped] using h
  · exact nodup_keys_fold_owner ts [] (by simp [groupedKeys])

/-- C2 counterexample: an owner reference `[5, ""]` with an empty label is
keyed under the empty string, not under the sentinel `"Unassigned"`. -/
theorem C2_empty_label_counterexample :
    group_by_owner [taskEmptyLabelOwner] = [(PyAtom.aStr "", [taskEmptyLabelOwner])] ∧
      PyAtom.aStr "Unassigned" ∉ groupedKeys (group_by_owner [taskEmptyLabelOwner]) := by
  constructor
  · decide
  · decide

/-- C3 (amended): a record whose start key is absent receives the epoch
default key `1970-01-01 00:00:00`; if the start of any record is present but
fails to parse (a malformed string, or the unset marker), the sort fails
and the whole group keeps its original order; in every case the sort step
returns a permutation of its input and no exception propagates. -/
theorem C3_sort_fallback_spec :
    (∀ t : Task, t.start_datetime = DtVal.absent →
      slotSortKey t = some ⟨1970, 1, 1, 0, 0, 0⟩) ∧
    (∀ (ts : List Task) (t : Task), t ∈ ts → slotSortKey t = none →
      sort_owner_group ts = ts) ∧
    (∀ ts : List Task, (sort_owner_group ts).Perm ts) := by
  refine ⟨?_, ?_, ?_⟩
  · intro t h
    unfold slotSortKey
    rw [h]
    decide
  · intro ts t hmem hkey
    have hall : ¬ (ts.all (fun t => (slotSortKey t).isSome) = true) := by
      simp only [List.all_eq_true]
      intro h
      have h2 := h t hmem
      rw [hkey] at h2
      simp at h2
    unfold sort_owner_group
    rw [if_neg hall]
  · intro ts
    unfold sort_owner_group
    by_cases hall : ts.all (fun t => (slotSortKey t).isSome) = true
    · rw [if_pos hall]
      exact insertionSortTasks_perm ts
    · rw [if_neg hall]

/-- C3 witness: the epoch default on an absent key, and the unsorted
fallback on a group containing an unparsable start. -/
theorem C3_sort_fallback_witness :
    slotSortKey taskBlank = some ⟨1970, 1, 1, 0, 0, 0⟩ ∧
      sort_owner_group [taskStartA, taskStartBad] = [taskStartA, taskStartBad] :=
  ⟨C3_sort_fallback_spec.1 taskBlank rfl,
    C3_sort_fallback_spec.2.1 [taskStartA, taskStartBad] taskStartBad (by decide) (by decide)⟩

/-- C3 counterexample: a record with the unparsable start `"garbage"` does
not sort first as an epoch-minimum — the group is left unsorted, with that
record still last. -/
theorem C3_unparsable_counterexample :
    sort_owner_group [taskStartA, taskStartBad] = [taskStartA, taskStartBad] ∧
      sort_owner_group [taskStartA, taskStartBad] ≠ [taskStartBad, taskStartA] := by
  constructor
  · decide
  · decide

/-- C8: the per-owner sort is stable: for every start-timestamp value, the
subsequence of records parsing to that value is unchanged by the sort. -/
theorem C8_sort_stable (ts : List Task) (v : DateTime) :
    (sort_owner_group ts).filter (fun t => slotSortKey t == some v) =
      ts.filter (fun t => slotSortKey t == some v) := by
  unfold sort_owner_group
  by_cases hall : ts.all (fun t => (slotSortKey t).isSome) = true
  · rw [if_pos hall]
    exact filter_insertionSortTasks v ts
  · rw [if_neg hall]

/-- C7: with a provided allow-set, a recap whose creator key fails the
membership test appears in no group at all. -/
theorem C7_recap_filter (recs : List Recap) (names : List String) (r : Recap)
    (h : pyInNames (creator_key r) names = false) :
    ∀ p ∈ group_recaps recs (some names), r ∉ p.2 := by
  intro p hp hmem
  have h2 := (group_recaps_some_invariant recs names p hp).1 r hmem
  rw [h] at h2
  exact Bool.false_ne_true h2

/-- C7 witness: with `allowed_names = ["Alice"]`, the record created by
`"Bob"` is absent from the one group that is produced. -/
theorem C7_recap_filter_witness :
    recapBob ∉ (PyAtom.aStr "Alice", [recapAlice]).2 :=
  C7_recap_filter [recapAlice, recapBob] ["Alice"] recapBob (by decide)
    (PyAtom.aStr "Alice", [recapAlice]) (by decide)

/-- C10: a recap with a missing or malformed creator reference is keyed by
the sentinel `"Unassigned"`; when favorite filtering is active it is
therefore dropped unless the literal name `"Unassigned"` is in the allowed
set, and no `"Unassigned"` group can exist unless that literal name is in
the set. -/
theorem C10_unassigned_sentinel :
    (∀ r : Recap, malformedRef r.create_uid →
      creator_key r = PyAtom.aStr "Unassigned") ∧
    (∀ (recs : List Recap) (names : List String) (r : Recap),
      malformedRef r.create_uid → "Unassigned" ∉ names →
      ∀ p ∈ group_recaps recs (some names), r ∉ p.2) ∧
    (∀ (recs : List Recap) (names : List String), "Unassigned" ∉ names →
      PyAtom.aStr "Unassigned" ∉ groupedKeys (group_recaps recs (some names))) := by
  have hkey : ∀ r : Recap, malformedRef r.create_uid →
      creator_key r = PyAtom.aStr "Unassigned" := by
    intro r h
    unfold creator_key
    unfold malformedRef at h
    cases hc : r.create_uid with
    | atom a => rfl
    | list l =>
      rw [hc] at h
      have h2 : l.length ≤ 1 := h
      show (if 1 < l.length then l.getD 1 .aNone else .aStr "Unassigned") = .aStr "Unassigned"
      rw [if_neg (by omega)]
  refine ⟨hkey, ?_, ?_⟩
  · intro recs names r hmal hnames p hp hmem
    have h2 := (group_recaps_some_invariant recs names p hp).1 r hmem
    rw [hkey r hmal] at h2
    have h3 : "Unassigned" ∈ names := by simpa [pyInNames] using h2
    exact hnames h3
  · intro recs names hnames hmemk
    unfold groupedKeys at hmemk
    obtain ⟨p, hp, hpk⟩ := List.mem_map.mp hmemk
    have h2 := (group_recaps_some_invariant recs names p hp).2
    rw [show p.1 = PyAtom.aStr "Unassigned" from hpk] at h2
    have h3 : "Unassigned" ∈ names := by simpa [pyInNames] using h2
    exact hnames h3

/-- C10 witness: an unset creator gets the sentinel key, and with the
allow-set `["Alice"]` no `"Unassigned"` group exists. -/
theorem C10_unassigned_sentinel_witness :
    creator_key recapNoCreator = PyAtom.aStr "Unassigned" ∧
      PyAtom.aStr "Unassigned" ∉
        groupedKeys (group_recaps [recapNoCreator] (some ["Alice"])) :=
  ⟨C10_unassigned_sentinel.1 recapNoCreator trivial,
    C10_unassigned_sentinel.2.2 [recapNoCreator] ["Alice"] (by decide)⟩

/-- C6: the rendered per-record block always contains the literal line
`"Parent Task: Missing Parent Task"` when no parent label is resolvable;
a `Role:` line appears only when the role label is truthy; `Sub Task:`
appears only when both parent and sub-task labels are truthy;
`Service Category:` and `No. of Units:` additionally require the sub-task
id to resolve in the detail map with a truthy value; and a `Date Range:`
line appears only when the formatted range is non-empty. -/
theorem C6_morning_lines_spec (t : Task) (m : List (PyAtom × SubRec)) :
    ((get_field_name t.x_studio_parent_task).truthy = false →
      "Parent Task: Missing Parent Task" ∈ build_morning_lines t m) ∧
    (∀ l ∈ build_morning_lines t m, isTagged "Role: " l →
      (get_field_name t.role_id).truthy = true) ∧
    (∀ l ∈ build_morning_lines t m, isTagged "Sub Task: " l →
      (get_field_name t.x_studio_parent_task).truthy = true ∧
        (get_field_name t.x_studio_sub_task_1).truthy = true) ∧
    (∀ l ∈ build_morning_lines t m, isTagged "Service Category: " l →
      (get_field_name t.x_studio_parent_task).truthy = true ∧
        (get_field_name t.x_studio_sub_task_1).truthy = true ∧ scCond t m = true) ∧
    (∀ l ∈ build_morning_lines t m, isTagged "No. of Units: " l →
      (get_field_name t.x_studio_parent_task).truthy = true ∧
        (get_field_name t.x_studio_sub_task_1).truthy = true ∧ unitsCond t m = true) ∧
    (∀ l ∈ build_morning_lines t m, isTagged "Date Range: " l →
      format_datetime_range (dt_str_of t.start_datetime) (dt_str_of t.end_datetime) ≠ "") := by
  refine ⟨?_, ?_, ?_, ?_, ?_, ?_⟩
  · intro h
    have hp : parent_lines t m = ["Parent Task: Missing Parent Task"] := by
      unfold parent_lines
      rw [if_neg (by simp [h])]
    unfold build_morning_lines
    rw [hp]
    simp
  · intro l hl htag
    rcases mem_build_morning_lines hl with hr | hp | hd
    · exact (mem_role_lines hr).1
    · rcases mem_parent_lines hp with ⟨_, rfl⟩ | ⟨hpt, hrest⟩
      · exact absurd htag (not_isTagged_concrete 0 (by decide) (by decide))
      · rcases hrest with rfl | hsub
        · exact absurd htag (not_isTagged_of_mismatch 0 (by decide) (by decide) (by decide) _)
        · obtain ⟨hsn, hrest2⟩ := mem_sub_lines hsub
          rcases hrest2 with rfl | hdet
          · exact absurd htag
              (not_isTagged_of_mismatch 0 (by decide) (by decide) (by decide) _)
          · rcases mem_sub_detail_lines hdet with ⟨_, v, rfl⟩ | ⟨_, v, rfl⟩
            · exact absurd htag
                (not_isTagged_of_mismatch 0 (by decide) (by decide) (by decide) _)
            · exact absurd htag
                (not_isTagged_of_mismatch 0 (by decide) (by decide) (by decide) _)
    · obtain ⟨_, v, rfl⟩ := mem_date_lines hd
      exact absurd htag (not_isTagged_of_mismatch 0 (by decide) (by decide) (by decide) _)
  · intro l hl htag
    rcases mem_build_morning_lines hl with hr | hp | hd
    · obtain ⟨_, rfl⟩ := mem_role_lines hr
      exact absurd htag (not_isTagged_of_mismatch 0 (by decide) (by decide) (by decide) _)
    · rcases mem_parent_lines hp with ⟨_, rfl⟩ | ⟨hpt, hrest⟩
      · exact absurd htag (not_isTagged_concrete 0 (by decide) (by decide))
      · rcases hrest with rfl | hsub
        · exact absurd htag (not_isTagged_of_mismatch 0 (by decide) (by decide) (by decide) _)
        · obtain ⟨hsn, hrest2⟩ := mem_sub_lines hsub
          rcases hrest2 with rfl | hdet
          · exact ⟨hpt, hsn⟩
          · rcases mem_sub_detail_lines hdet with ⟨_, v, rfl⟩ | ⟨_, v, rfl⟩
            · exact absurd htag
                (not_isTagged_of_mismatch 1 (by decide) (by decide) (by decide) _)
            · exact absurd htag
                (not_isTagged_of_mismatch 0 (by decide) (by decide) (by decide) _)
    · obtain ⟨_, v, rfl⟩ := mem_date_lines hd
      exact absurd htag (not_isTagged_of_mismatch 0 (by decide) (by decide) (by decide) _)
  · intro l hl htag
    rcases mem_build_morning_lines hl with hr | hp | hd
    · obtain ⟨_, rfl⟩ := mem_role_lines hr
      exact absurd htag (not_isTagged_of_mismatch 0 (by decide) (by decide) (by decide) _)
    · rcases mem_parent_lines hp with ⟨_, rfl⟩ | ⟨hpt, hrest⟩
      · exact absurd htag (not_isTagged_concrete 0 (by decide) (by decide))
      · rcases hrest with rfl | hsub
        · exact absurd htag (not_isTagged_of_mismatch 0 (by decide) (by decide) (by decide) _)
        · obtain ⟨hsn, hrest2⟩ := mem_sub_lines hsub
          rcases hrest2 with rfl | hdet
          · exact absurd htag
              (not_isTagged_of_mismatch 1 (by decide) (by decide) (by decide) _)
          · rcases mem_sub_detail_lines hdet with ⟨hsc, v, rfl⟩ | ⟨_, v, rfl⟩
            · exact ⟨hpt, hsn, hsc⟩
            · exact absurd htag
                (not_isTagged_of_mismatch 0 (by decide) (by decide) (by decide) _)
    · obtain ⟨_, v, rfl⟩ := mem_date_lines hd
      exact absurd htag (not_isTagged_of_mismatch 0 (by decide) (by decide) (by decide) _)
  · intro l hl htag
    rcases mem_build_morning_lines hl with hr | hp | hd
    · obtain ⟨_, rfl⟩ := mem_role_lines hr
      exact absurd htag (not_isTagged_of_mismatch 0 (by decide) (by decide) (by decide) _)
    · rcases mem_parent_lines hp with ⟨_, rfl⟩ | ⟨hpt, hrest⟩
      · exact absurd htag (not_isTagged_concrete 0 (by decide) (by decide))
      · rcases hrest with rfl | hsub
        · exact absurd htag (not_isTagged_of_mismatch 0 (by decide) (by decide) (by decide) _)
        · obtain ⟨hsn, hrest2⟩ := mem_sub_lines hsub
          rcases hrest2 with rfl | hdet
          · exact absurd htag
              (not_isTagged_of_mismatch 0 (by decide) (by decide) (by decide) _)
          · rcases mem_sub_detail_lines hdet with ⟨_, v, rfl⟩ | ⟨hu, v, rfl⟩
            · exact absurd htag
                (not_isTagged_of_mismatch 0 (by decide) (by decide) (by decide) _)
            · exact ⟨hpt, hsn, hu⟩
    · obtain ⟨_, v, rfl⟩ := mem_date_lines hd
      exact absurd htag (not_isTagged_of_mismatch 0 (by decide) (by decide) (by decide) _)
  · intro l hl htag
    rcases mem_build_morning_lines hl with hr | hp | hd
    · obtain ⟨_, rfl⟩ := mem_role_lines hr
      exact absurd htag (not_isTagged_of_mismatch 0 (by decide) (by decide) (by decide) _)
    · rcases mem_parent_lines hp with ⟨_, rfl⟩ | ⟨hpt, hrest⟩
      · exact absurd htag (not_isTagged_concrete 0 (by decide) (by decide))
      · rcases hrest with rfl | hsub
        · exact absurd htag (not_isTagged_of_mismatch 0 (by decide) (by decide) (by decide) _)
        · obtain ⟨hsn, hrest2⟩ := mem_sub_lines hsub
          rcases hrest2 with rfl | hdet
          · exact absurd htag
              (not_isTagged_of_mismatch 0 (by decide) (by decide) (by decide) _)
          · rcases mem_sub_detail_lines hdet with ⟨_, v, rfl⟩ | ⟨_, v, rfl⟩
            · exact absurd htag
                (not_isTagged_of_mismatch 0 (by decide) (by decide) (by decide) _)
            · exact absurd htag
                (not_isTagged_of_mismatch 0 (by decide) (by decide) (by decide) _)
    · exact (mem_date_lines hd).1

/-- C6 witness: the mandatory missing-parent line on an empty record, and
the Service Category conditions extracted from a fully populated record. -/
theorem C6_morning_lines_witness :
    "Parent Task: Missing Parent Task" ∈ build_morning_lines taskBlank [] ∧
      ((get_field_name taskFull.x_studio_parent_task).truthy = true ∧
        (get_field_name taskFull.x_studio_sub_task_1).truthy = true ∧
        scCond taskFull subMapFull = true) :=
  ⟨(C6_morning_lines_spec taskBlank []).1 (by decide),
    (C6_morning_lines_spec taskFull subMapFull).2.2.2.1 "Service Category: Cat"
      (by decide) ⟨"Cat".data, by decide⟩⟩

end Tasklist
